import Mathlib

/-!
Verification of the token-bucket rate limiter in src/utils/rateLimiter.ts.

The embedding models the mutable limiter state as a `Bucket` record over ℚ
(timestamps in milliseconds, tokens as exact numbers), the private method
`refillTokens` as a pure state transformer parameterised by the current
wall-clock time, and the async method `waitForToken` as a fuel-indexed
recursion parameterised by a clock: `clock i` is the value of Date.now at
the start of the i-th attempt of the refill/consume/wait loop.  The result
records the list of sleep durations (the waitTimeMs passed to setTimeout at
each wait) together with the final bucket; the `Except` layer is the
promise rejection channel, which the source never uses.  `none` means the
fuel ran out before the call completed.
-/

namespace RL

/-- Fixed constant from the constructor: 100 tokens maximum. -/
def capacity : ℚ := 100

/-- Fixed constant from the constructor: 10 tokens per second. -/
def refillRate : ℚ := 10

/-- The mutable state of a RateLimiter instance. -/
structure Bucket where
  tokens : ℚ
  lastRefill : ℚ
  deriving Repr, DecidableEq

/-- The constructor body: tokens = capacity, lastRefill = Date.now. -/
def freshBucket (now : ℚ) : Bucket :=
  { tokens := capacity, lastRefill := now }

/-- The private refillTokens method, with Date.now passed in as `now`. -/
def refillTokens (now : ℚ) (b : Bucket) : Bucket :=
  let elapsedSeconds : ℚ := (now - b.lastRefill) / 1000
  let newTokens : ℚ := elapsedSeconds * refillRate
  if 0 < newTokens then
    { tokens := min capacity (b.tokens + newTokens), lastRefill := now }
  else
    b

/-- The wait duration computed on the wait path:
(tokensNeeded / refillRate) * 1000 milliseconds. -/
def waitTimeMs (weight tokens : ℚ) : ℚ :=
  (weight - tokens) / refillRate * 1000

/-- The async waitForToken method.  `clock i` is Date.now at the start of
attempt `i`; `fuel` bounds the number of attempts the model unfolds;
the successful result carries the list of setTimeout durations slept and
the bucket after the deduction.  The Except layer is the rejection channel
of the returned promise; the source never rejects, so no branch below
produces an error. -/
def waitForToken (clock : ℕ → ℚ) (weight : ℚ) :
    ℕ → ℕ → Bucket → Option (Except String (List ℚ × Bucket))
  | 0, _, _ => none
  | fuel + 1, i, b =>
    let b1 := refillTokens (clock i) b
    if weight ≤ b1.tokens then
      some (Except.ok ([], { tokens := b1.tokens - weight, lastRefill := b1.lastRefill }))
    else
      match waitForToken clock weight fuel (i + 1) b1 with
      | none => none
      | some (Except.error e) => some (Except.error e)
      | some (Except.ok (ws, b2)) =>
          some (Except.ok (waitTimeMs weight b1.tokens :: ws, b2))

/-- The NoOpRateLimiter waitForToken: the weight parameter (defaulting to 1
when absent) is ignored and the promise resolves at once with no state and
no sleeps. -/
def noOpWaitForToken (w : Option ℚ) : Except String (List ℚ) :=
  let _weight : ℚ := w.getD 1
  Except.ok []

/-- One call of a driver sequence: the weight passed, the fuel allowed,
and the clock observed during that call. -/
structure Call where
  weight : ℚ
  fuel : ℕ
  clock : ℕ → ℚ

/-- Run a sequence of waitForToken calls, collecting the bucket observed
after each completed call; `none` if any call fails to complete or
rejects. -/
def runSeq : Bucket → List Call → Option (List Bucket)
  | _, [] => some []
  | b, c :: cs =>
    match waitForToken c.clock c.weight c.fuel 0 b with
    | some (Except.ok (_, b2)) => (runSeq b2 cs).map (fun bs => b2 :: bs)
    | _ => none

/-- The bucket invariant stated by the spec. -/
def Inv (b : Bucket) : Prop := 0 ≤ b.tokens ∧ b.tokens ≤ capacity

/-- Refill never pushes the balance above capacity. -/
theorem refillTokens_tokens_le (now : ℚ) (b : Bucket) (h : b.tokens ≤ capacity) :
    (refillTokens now b).tokens ≤ capacity := by
  unfold refillTokens
  dsimp only
  split
  · exact min_le_left _ _
  · exact h

/-- Refill never pushes a nonnegative balance below zero. -/
theorem refillTokens_tokens_nonneg (now : ℚ) (b : Bucket) (h : 0 ≤ b.tokens) :
    0 ≤ (refillTokens now b).tokens := by
  unfold refillTokens
  dsimp only
  split
  · next hpos =>
      refine le_min (by norm_num [capacity]) (by linarith)
  · exact h

/-- Refilling twice at the same instant is the same as refilling once. -/
theorem refillTokens_idem (now : ℚ) (b : Bucket) :
    refillTokens now (refillTokens now b) = refillTokens now b := by
  unfold refillTokens
  dsimp only
  split
  · simp
  · rfl

/-- Fast-path unfolding: when the refilled balance covers the weight, the
call returns at once with the weight deducted and no sleeps. -/
theorem waitForToken_consume (clock : ℕ → ℚ) (w : ℚ) (fuel i : ℕ) (b : Bucket)
    (h : w ≤ (refillTokens (clock i) b).tokens) :
    waitForToken clock w (fuel + 1) i b =
      some (Except.ok ([], { tokens := (refillTokens (clock i) b).tokens - w,
                             lastRefill := (refillTokens (clock i) b).lastRefill })) := by
  simp only [waitForToken]
  rw [if_pos h]

/-- Wait-path unfolding: when the refilled balance is short, the call
records one sleep of waitTimeMs and continues as a fresh attempt on the
refilled bucket. -/
theorem waitForToken_wait_step (clock : ℕ → ℚ) (w : ℚ) (fuel i : ℕ) (b : Bucket)
    (h : (refillTokens (clock i) b).tokens < w) :
    waitForToken clock w (fuel + 1) i b =
      (waitForToken clock w fuel (i + 1) (refillTokens (clock i) b)).map
        (Except.map fun r => (waitTimeMs w (refillTokens (clock i) b).tokens :: r.1, r.2)) := by
  simp only [waitForToken]
  rw [if_neg (not_le.mpr h)]
  cases hx : waitForToken clock w fuel (i + 1) (refillTokens (clock i) b) with
  | none => rfl
  | some r => cases r with
    | error e => rfl
    | ok p => rfl

/-- C3: the refill step, run at the start of every waitForToken attempt,
computes the elapsed seconds since lastRefill and, when the accrual
elapsed * refillRate is positive, sets tokens to
min(capacity, tokens + accrual) and advances lastRefill to now; otherwise
it changes nothing.  The final conjunct records that the refill really is
the first action of every attempt: pre-refilling the bucket at the
attempt time does not change the outcome of the call. -/
theorem refillTokens_spec :
    (∀ (now : ℚ) (b : Bucket),
      (0 < (now - b.lastRefill) / 1000 * refillRate →
        refillTokens now b =
          { tokens := min capacity (b.tokens + (now - b.lastRefill) / 1000 * refillRate),
            lastRefill := now }) ∧
      (¬ 0 < (now - b.lastRefill) / 1000 * refillRate → refillTokens now b = b)) ∧
    (∀ (clock : ℕ → ℚ) (w : ℚ) (fuel i : ℕ) (b : Bucket),
      waitForToken clock w (fuel + 1) i b =
        waitForToken clock w (fuel + 1) i (refillTokens (clock i) b)) := by
  constructor
  · intro now b
    constructor
    · intro hpos
      unfold refillTokens
      dsimp only
      rw [if_pos hpos]
    · intro hneg
      unfold refillTokens
      dsimp only
      rw [if_neg hneg]
  · intro clock w fuel i b
    simp only [waitForToken, refillTokens_idem]

/-- Witness for C3 at a concrete input: 1000ms elapsed on a half-full
bucket accrues 10 tokens and stamps the refill time. -/
theorem refillTokens_spec_witness :
    refillTokens 1000 { tokens := 50, lastRefill := 0 } =
      { tokens := min capacity (50 + (1000 - 0) / 1000 * refillRate), lastRefill := 1000 } := by
  have h := (refillTokens_spec.1 1000 { tokens := 50, lastRefill := 0 }).1
    (by norm_num [refillRate])
  simpa using h

/-- C4: when the refilled balance covers the weight, waitForToken deducts
exactly the weight and completes with no suspension (an empty list of
sleeps), leaving lastRefill as stamped by the refill. -/
theorem waitForToken_fast_path (clock : ℕ → ℚ) (w : ℚ) (fuel i : ℕ) (b : Bucket)
    (h : w ≤ (refillTokens (clock i) b).tokens) :
    waitForToken clock w (fuel + 1) i b =
      some (Except.ok ([], { tokens := (refillTokens (clock i) b).tokens - w,
                             lastRefill := (refillTokens (clock i) b).lastRefill })) :=
  waitForToken_consume clock w fuel i b h

/-- Witness for C4: on a fresh limiter (100 tokens) acquire(1) completes
at once leaving 99 tokens, and an immediately following acquire(50)
completes at once leaving 49 tokens, with no sleeps in either call. -/
theorem waitForToken_fast_path_witness :
    waitForToken (fun _ => 0) 1 1 0 (freshBucket 0) =
      some (Except.ok ([], { tokens := 99, lastRefill := 0 })) ∧
    waitForToken (fun _ => 0) 50 1 0 { tokens := 99, lastRefill := 0 } =
      some (Except.ok ([], { tokens := 49, lastRefill := 0 })) := by
  constructor
  · have h := waitForToken_fast_path (fun _ => 0) 1 0 0 (freshBucket 0)
      (by norm_num [refillTokens, freshBucket, capacity, refillRate])
    rw [h]
    norm_num [refillTokens, freshBucket, capacity, refillRate]
  · have h := waitForToken_fast_path (fun _ => 0) 50 0 0 { tokens := 99, lastRefill := 0 }
      (by norm_num [refillTokens, capacity, refillRate])
    rw [h]
    norm_num [refillTokens, capacity, refillRate]

/-- C5: when the refilled balance is short of the weight, waitForToken
suspends for exactly waitTimeMs = (weight - tokens) / refillRate * 1000
milliseconds and then repeats the whole attempt (refill and re-check) on
the bucket, rather than consuming unconditionally: the outcome is that of
a fresh waitForToken run on the refilled bucket, with the computed sleep
recorded in front of that run's sleeps. -/
theorem waitForToken_wait_path (clock : ℕ → ℚ) (w : ℚ) (fuel i : ℕ) (b : Bucket)
    (h : (refillTokens (clock i) b).tokens < w) :
    waitForToken clock w (fuel + 1) i b =
      (waitForToken clock w fuel (i + 1) (refillTokens (clock i) b)).map
        (Except.map fun r =>
          ((w - (refillTokens (clock i) b).tokens) / refillRate * 1000 :: r.1, r.2)) :=
  waitForToken_wait_step clock w fuel i b h

/-- Witness for C5: on a limiter drained to 0 tokens, acquire(10) computes
a sleep of exactly 1000ms; with the clock advancing by exactly that sleep
the call then completes, having slept once for 1000ms. -/
theorem waitForToken_wait_path_witness :
    waitForToken (fun i => 1000 * i) 10 2 0 { tokens := 0, lastRefill := 0 } =
      (waitForToken (fun i => 1000 * i) 10 1 1
          (refillTokens 0 { tokens := 0, lastRefill := 0 })).map
        (Except.map fun r =>
          ((10 - (refillTokens 0 { tokens := 0, lastRefill := 0 }).tokens)
              / refillRate * 1000 :: r.1, r.2)) ∧
    waitForToken (fun i => 1000 * i) 10 2 0 { tokens := 0, lastRefill := 0 } =
      some (Except.ok ([1000], { tokens := 0, lastRefill := 1000 })) := by
  constructor
  · have h := waitForToken_wait_path (fun i => 1000 * i) 10 1 0 { tokens := 0, lastRefill := 0 }
      (by norm_num [refillTokens, capacity, refillRate])
    simpa using h
  · norm_num [waitForToken, refillTokens, waitTimeMs, capacity, refillRate]

/-- C6: a freshly constructed RateLimiter has capacity 100, refillRate 10,
a full bucket (tokens = capacity) and lastRefill equal to the construction
time; the constructor takes no configuration beyond the current time. -/
theorem constructor_spec (now : ℚ) :
    capacity = 100 ∧ refillRate = 10 ∧ (freshBucket now).tokens = capacity ∧
      (freshBucket now).lastRefill = now :=
  ⟨rfl, rfl, rfl, rfl⟩

/-- C7: the no-op waitForToken resolves at once for every weight, absent
included, with no sleeps, no error, and no state to mutate, so its result
never depends on the weight or on earlier calls. -/
theorem noOpWaitForToken_spec (w : Option ℚ) :
    noOpWaitForToken w = Except.ok [] ∧
      ∀ w2 : Option ℚ, noOpWaitForToken w = noOpWaitForToken w2 :=
  ⟨rfl, fun _ => rfl⟩

/-- C1: contrary to the spec, a weight above capacity is never satisfied.
The refill step clamps the balance to capacity, so from any bucket holding
at most capacity tokens the consume test fails at every attempt and
waitForToken runs out of any amount of fuel: the call never completes,
however the clock behaves. -/
theorem waitForToken_large_weight_never_completes (clock : ℕ → ℚ) (w : ℚ)
    (hw : capacity < w) :
    ∀ (fuel i : ℕ) (b : Bucket), b.tokens ≤ capacity →
      waitForToken clock w fuel i b = none := by
  intro fuel
  induction fuel with
  | zero => intro i b _; rfl
  | succ n ih =>
    intro i b hb
    have h1 : (refillTokens (clock i) b).tokens ≤ capacity :=
      refillTokens_tokens_le _ _ hb
    simp only [waitForToken]
    rw [if_neg (not_le.mpr (lt_of_le_of_lt h1 hw))]
    rw [ih (i + 1) _ h1]

/-- Witness for C1: acquire(150) on a fresh limiter exhausts any fuel
without completing. -/
theorem waitForToken_large_weight_never_completes_witness :
    capacity < 150 ∧ (freshBucket 0).tokens ≤ capacity ∧
      waitForToken (fun _ => 0) 150 3 0 (freshBucket 0) = none := by
  refine ⟨by norm_num [capacity], by simp [freshBucket], ?_⟩
  exact waitForToken_large_weight_never_completes (fun _ => 0) 150
    (by norm_num [capacity]) 3 0 (freshBucket 0) (by simp [freshBucket])

/-- A completed waitForToken call with positive weight preserves the
bucket invariant 0 ≤ tokens ≤ capacity. -/
theorem waitForToken_preserves_Inv (clock : ℕ → ℚ) (w : ℚ) (hw : 0 < w) :
    ∀ (fuel i : ℕ) (b : Bucket) (ws : List ℚ) (b2 : Bucket),
      waitForToken clock w fuel i b = some (Except.ok (ws, b2)) → Inv b → Inv b2 := by
  intro fuel
  induction fuel with
  | zero => intro i b ws b2 h _; exact absurd h (by simp [waitForToken])
  | succ n ih =>
    intro i b ws b2 h hb
    have h0 : 0 ≤ (refillTokens (clock i) b).tokens :=
      refillTokens_tokens_nonneg _ _ hb.1
    have h1 : (refillTokens (clock i) b).tokens ≤ capacity :=
      refillTokens_tokens_le _ _ hb.2
    simp only [waitForToken] at h
    by_cases hle : w ≤ (refillTokens (clock i) b).tokens
    · rw [if_pos hle] at h
      simp only [Option.some.injEq, Except.ok.injEq, Prod.mk.injEq] at h
      rw [← h.2]
      exact ⟨by simpa using sub_nonneg.mpr hle, by dsimp; linarith⟩
    · rw [if_neg hle] at h
      rcases hx : waitForToken clock w n (i + 1) (refillTokens (clock i) b) with _ | r
      · rw [hx] at h; simp at h
      · rcases r with e | ⟨ws2, b3⟩
        · rw [hx] at h; simp at h
        · rw [hx] at h
          simp only [Option.some.injEq, Except.ok.injEq, Prod.mk.injEq] at h
          rw [← h.2]
          exact ih (i + 1) _ ws2 b3 hx ⟨h0, h1⟩

/-- C2: along any sequence of completed waitForToken calls with positive
weights, every bucket observed between operations satisfies the invariant
0 ≤ tokens ≤ capacity. -/
theorem runSeq_tokens_invariant :
    ∀ (cs : List Call) (b : Bucket) (bs : List Bucket),
      Inv b → (∀ c ∈ cs, 0 < c.weight) → runSeq b cs = some bs →
        ∀ b2 ∈ bs, Inv b2 := by
  intro cs
  induction cs with
  | nil =>
    intro b bs _ _ h b2 hmem
    simp only [runSeq, Option.some.injEq] at h
    subst h
    simp at hmem
  | cons c cs ih =>
    intro b bs hb hpos hrun b2 hmem
    simp only [runSeq] at hrun
    rcases hx : waitForToken c.clock c.weight c.fuel 0 b with _ | r
    · rw [hx] at hrun; simp at hrun
    · rcases r with e | ⟨ws, b3⟩
      · rw [hx] at hrun; simp at hrun
      · rw [hx] at hrun
        simp only [Option.map_eq_some'] at hrun
        obtain ⟨bs2, hbs2, hcons⟩ := hrun
        have hInv3 : Inv b3 :=
          waitForToken_preserves_Inv c.clock c.weight
            (hpos c (List.mem_cons_self _ _)) c.fuel 0 b ws b3 hx hb
        rw [← hcons] at hmem
        rcases List.mem_cons.mp hmem with h | h
        · rw [h]; exact hInv3
        · exact ih b3 bs2 hInv3 (fun d hd => hpos d (List.mem_cons_of_mem _ hd)) hbs2 b2 h

/-- Witness for C2: the fast-path sequence acquire(1); acquire(50) from a
fresh limiter observes buckets holding 99 then 49 tokens, both within the
invariant. -/
theorem runSeq_tokens_invariant_witness :
    Inv (freshBucket 0) ∧
    runSeq (freshBucket 0)
        [{ weight := 1, fuel := 1, clock := fun _ => 0 },
         { weight := 50, fuel := 1, clock := fun _ => 0 }] =
      some [{ tokens := 99, lastRefill := 0 }, { tokens := 49, lastRefill := 0 }] ∧
    (∀ b2 ∈ [({ tokens := 99, lastRefill := 0 } : Bucket),
             { tokens := 49, lastRefill := 0 }], Inv b2) := by
  have hInv : Inv (freshBucket 0) := by
    constructor <;> norm_num [freshBucket, capacity]
  have hrun : runSeq (freshBucket 0)
      [{ weight := 1, fuel := 1, clock := fun _ => 0 },
       { weight := 50, fuel := 1, clock := fun _ => 0 }] =
      some [{ tokens := 99, lastRefill := 0 }, { tokens := 49, lastRefill := 0 }] := by
    norm_num [runSeq, waitForToken, refillTokens, freshBucket, capacity, refillRate]
  refine ⟨hInv, hrun, ?_⟩
  refine runSeq_tokens_invariant _ _ _ hInv ?_ hrun
  intro c hc
  rcases List.mem_cons.mp hc with h | h
  · rw [h]; norm_num
  · rcases List.mem_cons.mp h with h2 | h2
    · rw [h2]; norm_num
    · simp at h2

/-- If the recursion completes, the result came through the ok branch:
no code path produces an error. -/
theorem waitForToken_some_ok (clock : ℕ → ℚ) (w : ℚ) :
    ∀ (fuel i : ℕ) (b : Bucket) (r : Except String (List ℚ × Bucket)),
      waitForToken clock w fuel i b = some r → ∃ ws b2, r = Except.ok (ws, b2) := by
  intro fuel
  induction fuel with
  | zero => intro i b r h; exact absurd h (by simp [waitForToken])
  | succ n ih =>
    intro i b r h
    simp only [waitForToken] at h
    by_cases hle : w ≤ (refillTokens (clock i) b).tokens
    · rw [if_pos hle] at h
      exact ⟨_, _, (Option.some.inj h).symm⟩
    · rw [if_neg hle] at h
      rcases hx : waitForToken clock w n (i + 1) (refillTokens (clock i) b) with _ | r2
      · rw [hx] at h; simp at h
      · rcases r2 with e | ⟨ws, b2⟩
        · obtain ⟨ws2, b3, hok⟩ := ih (i + 1) _ _ hx
          exact absurd hok (by simp)
        · rw [hx] at h
          exact ⟨_, _, (Option.some.inj h).symm⟩

/-- C8: waitForToken never rejects: whenever a call completes it resolves
through the ok channel, and the no-op variant resolves through the ok
channel on every input. -/
theorem waitForToken_never_rejects :
    (∀ (clock : ℕ → ℚ) (w : ℚ) (fuel i : ℕ) (b : Bucket)
        (r : Except String (List ℚ × Bucket)),
      waitForToken clock w fuel i b = some r → ∃ ws b2, r = Except.ok (ws, b2)) ∧
    (∀ w : Option ℚ, ∃ v, noOpWaitForToken w = Except.ok v) :=
  ⟨waitForToken_some_ok, fun _ => ⟨[], rfl⟩⟩

/-- Witness for C8 at a concrete completing call. -/
theorem waitForToken_never_rejects_witness :
    ∃ ws b2, (Except.ok ([], { tokens := 99, lastRefill := 0 }) :
        Except String (List ℚ × Bucket)) = Except.ok (ws, b2) :=
  waitForToken_never_rejects.1 (fun _ => 0) 1 1 0 (freshBucket 0) _
    (by norm_num [waitForToken, refillTokens, freshBucket, capacity, refillRate])

/-- C9: when the clock reads a time at or before lastRefill the accrual is
not positive, so the refill step changes neither tokens nor lastRefill,
and waitForToken proceeds with the unchanged bucket exactly as the normal
algorithm prescribes instead of failing. -/
theorem clock_backward_graceful :
    (∀ (now : ℚ) (b : Bucket), now ≤ b.lastRefill → refillTokens now b = b) ∧
    (∀ (clock : ℕ → ℚ) (w : ℚ) (fuel i : ℕ) (b : Bucket), clock i ≤ b.lastRefill →
      waitForToken clock w (fuel + 1) i b =
        if w ≤ b.tokens then
          some (Except.ok ([], { tokens := b.tokens - w, lastRefill := b.lastRefill }))
        else
          (waitForToken clock w fuel (i + 1) b).map
            (Except.map fun r => ((w - b.tokens) / refillRate * 1000 :: r.1, r.2))) := by
  have hfix : ∀ (now : ℚ) (b : Bucket), now ≤ b.lastRefill → refillTokens now b = b := by
    intro now b h
    have hx : (now - b.lastRefill) / 1000 * refillRate ≤ 0 := by
      rw [refillRate]; linarith
    unfold refillTokens
    dsimp only
    rw [if_neg (not_lt.mpr hx)]
  refine ⟨hfix, ?_⟩
  intro clock w fuel i b h
  by_cases hle : w ≤ b.tokens
  · rw [if_pos hle]
    have hc := waitForToken_consume clock w fuel i b (by rw [hfix _ _ h]; exact hle)
    rw [hc, hfix _ _ h]
  · rw [if_neg hle]
    have hlt : (refillTokens (clock i) b).tokens < w := by
      rw [hfix _ _ h]; exact not_le.mp hle
    have hstep := waitForToken_wait_step clock w fuel i b hlt
    rw [hstep, hfix _ _ h]
    simp only [waitTimeMs]

/-- Witness for C9: a clock reading 0 against lastRefill 100 leaves the
bucket untouched and the call still consumes normally. -/
theorem clock_backward_graceful_witness :
    refillTokens 0 { tokens := 50, lastRefill := 100 } =
      { tokens := 50, lastRefill := 100 } ∧
    waitForToken (fun _ => 0) 1 1 0 { tokens := 50, lastRefill := 100 } =
      some (Except.ok ([], { tokens := 49, lastRefill := 100 })) := by
  constructor
  · exact clock_backward_graceful.1 0 _ (by norm_num)
  · have h := clock_backward_graceful.2 (fun _ => 0) 1 0 0
      { tokens := 50, lastRefill := 100 } (by norm_num)
    rw [h]
    norm_num

/-- C10: a weight at or below zero always takes the fast path (the
refilled balance is nonnegative, hence at least the weight), completing
at once with the weight subtracted — so a strictly negative weight adds
tokens, and on a fresh limiter weight -50 leaves 150 tokens, above
capacity. -/
theorem nonpositive_weight_fast_path :
    (∀ (clock : ℕ → ℚ) (w : ℚ) (fuel i : ℕ) (b : Bucket), w ≤ 0 → 0 ≤ b.tokens →
      waitForToken clock w (fuel + 1) i b =
        some (Except.ok ([], { tokens := (refillTokens (clock i) b).tokens - w,
                               lastRefill := (refillTokens (clock i) b).lastRefill }))) ∧
    (∃ b2, waitForToken (fun _ => 0) (-50) 1 0 (freshBucket 0) =
        some (Except.ok ([], b2)) ∧ capacity < b2.tokens) := by
  constructor
  · intro clock w fuel i b hw hb
    exact waitForToken_consume clock w fuel i b
      (le_trans hw (refillTokens_tokens_nonneg _ _ hb))
  · refine ⟨{ tokens := 150, lastRefill := 0 }, ?_, by norm_num [capacity]⟩
    norm_num [waitForToken, refillTokens, freshBucket, capacity, refillRate]

/-- Witness for C10: acquire(-50) on a fresh limiter completes at once
with the balance increased by 50. -/
theorem nonpositive_weight_fast_path_witness :
    waitForToken (fun _ => 0) (-50) 1 0 (freshBucket 0) =
      some (Except.ok ([], { tokens := (refillTokens 0 (freshBucket 0)).tokens - (-50),
                             lastRefill := (refillTokens 0 (freshBucket 0)).lastRefill })) :=
  nonpositive_weight_fast_path.1 (fun _ => 0) (-50) 0 0 (freshBucket 0)
    (by norm_num) (by norm_num [freshBucket, capacity])

end RL
